import Mathlib

/-!
Verification of the brailliant bitmap-canvas core.

The definitions below are a shallow embedding of `brailliant/base.py` and
`brailliant/canvas.py`.  Python `int` is modelled as `Int` (dot coordinates
may be negative), sizes as `Nat`, the `bitarray` buffer as `List Bool`, and
the Python `float` intermediates of the line rasterizer as their exact
IEEE 754 binary64 values: rationals closed under `flRound` (round to
nearest, ties to even), with correctly rounded addition and division and
Python's ties-to-even `round`.  Fallible operations return `Except PyErr`.
-/

namespace Brailliant

/-- The kinds of Python exception the modelled code can raise. -/
inductive PyErr where
  | valueError
  | indexError
  | typeError
  deriving DecidableEq, Repr

/-- Modelled from the spec: `BRAILLE_COLS` is defined in the package
initializer, which is not part of the sources at hand; the spec fixes a
Braille cell at 2 columns (`width_chars = ceil(width_dots/2)`). -/
def BRAILLE_COLS : Nat := 2

/-- Modelled from the spec: `BRAILLE_ROWS` is defined in the package
initializer, which is not part of the sources at hand; the spec fixes a
Braille cell at 4 rows (`height_chars = ceil(height_dots/4)`). -/
def BRAILLE_ROWS : Nat := 4

/-- `BRAILLE_RANGE_START = 0x2800` (base.py). -/
def BRAILLE_RANGE_START : Nat := 0x2800

/-- Lookup in a Python dict modelled as an association list in insertion
order (`d[k]`, returning `none` where Python would raise `KeyError` /
where `k not in d`). -/
def dictLookup {α β : Type} [DecidableEq α] : List (α × β) → α → Option β
  | [], _ => none
  | (k', v) :: rest, k => if k = k' then some v else dictLookup rest k

/-- `coords_braille_mapping` (base.py): dot coordinate (x-right, y-up,
relative to the cell's bottom-left) to the bit of the Braille low byte. -/
def coords_braille_mapping : List ((Int × Int) × Nat) :=
  [((0, 3), 1 <<< 0),
   ((0, 2), 1 <<< 1),
   ((0, 1), 1 <<< 2),
   ((0, 0), 1 <<< 6),
   ((1, 3), 1 <<< 3),
   ((1, 2), 1 <<< 4),
   ((1, 1), 1 <<< 5),
   ((1, 0), 1 <<< 7),
   ((0, -1), 0),
   ((1, -1), 0)]

/-- `coords_to_braille` (base.py).  Python returns `chr(result)`; we return
the code point itself. -/
def coords_to_braille (coords : List (Int × Int)) : Except PyErr Nat :=
  coords.foldlM
    (fun result coord =>
      match dictLookup coords_braille_mapping coord with
      | none => .error .valueError
      | some b => .ok (result ||| b))
    BRAILLE_RANGE_START

/-- The state of a `Canvas` object (canvas.py).  The `_text` overlay list is
not modelled; no claim involves text overlays. -/
structure Canvas where
  width_chars : Nat
  height_chars : Nat
  width : Nat
  height : Nat
  /-- the `_canvas` bitarray -/
  buffer : List Bool
  deriving DecidableEq, Repr, Inhabited

/-- `Canvas.__init__(width_dots, height_dots, contents)`. -/
def Canvas.init (width_dots height_dots : Nat) (contents : Option (List Bool)) : Canvas :=
  let wc := (width_dots + BRAILLE_COLS - 1) / BRAILLE_COLS
  let hc := (height_dots + BRAILLE_ROWS - 1) / BRAILLE_ROWS
  let w := wc * BRAILLE_COLS
  let h := hc * BRAILLE_ROWS
  { width_chars := wc
    height_chars := hc
    width := w
    height := h
    buffer := contents.getD (List.replicate (w * h) false) }

/-- The invariant `Canvas.__init__` establishes: dimensions are whole cells
and the buffer holds `width * height` bits. -/
def Canvas.WF (c : Canvas) : Prop :=
  c.width = c.width_chars * BRAILLE_COLS ∧
  c.height = c.height_chars * BRAILLE_ROWS ∧
  c.buffer.length = c.width * c.height

/-- The storage offset of dot `(x, y)`: `(height - y - 1) * width + x`,
for in-range `x < width`, `y < height` (vertical axis inverted). -/
def dotIndex (w h x y : Nat) : Nat :=
  (h - 1 - y) * w + x

/-- Reading back one dot of the buffer (used as the observation in the
theorems; the code reads the same offsets in `get_char`). -/
def Canvas.getDot (c : Canvas) (x y : Nat) : Bool :=
  c.buffer.getD (dotIndex c.width c.height x y) false

/-- The loop of `Canvas.with_changes`: `for x, y in coords: if in range,
self._canvas[(h - y - 1) * w + x] = val`. -/
def applyCoords (w h : Nat) (val : Bool) : List (Int × Int) → List Bool → List Bool
  | [], ba => ba
  | (x, y) :: rest, ba =>
      applyCoords w h val rest
        (if 0 ≤ x ∧ x < (w : Int) ∧ 0 ≤ y ∧ y < (h : Int) then
          ba.set (((h : Int) - y - 1) * w + x).toNat val
        else ba)

/-- `Canvas.with_changes(coords, mode)` (canvas.py). -/
def Canvas.with_changes (c : Canvas) (coords : List (Int × Int)) (mode : String) :
    Except PyErr Canvas :=
  if mode ≠ "add" ∧ mode ≠ "clear" then .error .valueError
  else
    let val : Bool := mode == "add"
    .ok { c with buffer := applyCoords c.width c.height val coords c.buffer }

/-- `get_char(grid, x, y, w)` (canvas.py): the 8 bits of the cell at
character column `x`, character row `y` (top to bottom), read as
`char[2*i + j] = grid[(y*4 + i)*w + x*2 + j]` for `i < 4`, `j < 2`. -/
def get_char (grid : List Bool) (x y w : Nat) : List Bool :=
  (List.range 4).flatMap fun i =>
    [grid.getD ((y * 4 + i) * w + x * 2) false,
     grid.getD ((y * 4 + i) * w + x * 2 + 1) false]

/-- Item assignment `ba[i] = v` on a bitarray: Python sequence semantics —
a negative index wraps around (`i + len`), an index outside
`[-len, len)` raises `IndexError`. -/
def bitarraySetItem (ba : List Bool) (i : Int) (v : Bool) : Except PyErr (List Bool) :=
  if i < -(ba.length : Int) ∨ (ba.length : Int) ≤ i then .error .indexError
  else .ok (ba.set (if i < 0 then i + ba.length else i).toNat v)

/-- `Canvas.set_cell(x, y)`: `self._canvas[(h - y - 1) * w + x] = 1`. -/
def Canvas.set_cell (c : Canvas) (x y : Int) : Except PyErr Canvas :=
  (bitarraySetItem c.buffer (((c.height : Int) - y - 1) * c.width + x) true).map
    fun ba => { c with buffer := ba }

/-- `Canvas.clear_cell(x, y)`: `self._canvas[(h - y - 1) * w + x] = 0`. -/
def Canvas.clear_cell (c : Canvas) (x y : Int) : Except PyErr Canvas :=
  (bitarraySetItem c.buffer (((c.height : Int) - y - 1) * c.width + x) false).map
    fun ba => { c with buffer := ba }

/-- `Canvas.invert()`: `self._canvas.invert()` flips every bit of the buffer
in place and the method returns `self` (`__invert__ = invert`).  The
in-place/aliasing aspect is modelled separately by `invertRef`. -/
def Canvas.invert (c : Canvas) : Canvas :=
  { c with buffer := c.buffer.map not }

/-- `Canvas.apply_other(other, operation)`: `operation(self._canvas,
other._canvas)` then `Canvas(self.width, self.height, ba)`.  There is no
dimension check in the source; the only failure is the one `bitarray`
raises, a `ValueError` when the two buffers differ in length. -/
def Canvas.apply_other (c other : Canvas) (op : Bool → Bool → Bool) : Except PyErr Canvas :=
  if c.buffer.length = other.buffer.length then
    .ok (Canvas.init c.width c.height (some (List.zipWith op c.buffer other.buffer)))
  else .error .valueError

/-- Round half to even on an exact rational: the rounding of Python's
`round` and of IEEE 754 round-to-nearest. -/
def pyRound (q : ℚ) : Int :=
  let f := ⌊q⌋
  let r := q - f
  if r < 1 / 2 then f
  else if 1 / 2 < r then f + 1
  else if f % 2 = 0 then f else f + 1

/-- `2^e` as a rational, for an integer exponent. -/
def pow2 (e : Int) : ℚ :=
  if 0 ≤ e then ((2 : ℚ) ^ e.toNat) else ((2 : ℚ) ^ (-e).toNat)⁻¹

/-- Floor of the base-2 logarithm of a positive rational: the true value
lies within one of `log2 num - log2 den`, so probe the three candidates. -/
def floorLog2 (q : ℚ) : Int :=
  let e0 : Int := (Nat.log2 q.num.natAbs : Int) - (Nat.log2 q.den : Int)
  if pow2 (e0 + 1) ≤ q then e0 + 1
  else if pow2 e0 ≤ q then e0
  else e0 - 1

/-- Round an exact rational to the nearest IEEE 754 binary64 value (round
to nearest, ties to even), returned as the exact rational value of that
double; subnormals included.  Overflow past the finite double range and
NaN never arise from this code's integer-coordinate inputs and are not
modelled. -/
def flRound (q : ℚ) : ℚ :=
  if q = 0 then 0
  else
    let aq := |q|
    let e := floorLog2 aq
    let g : ℚ := if -1022 ≤ e then pow2 (e - 52) else pow2 (-1074)
    let m := pyRound (aq / g)
    (if q < 0 then -(m : ℚ) else (m : ℚ)) * g

/-- Python float addition (`x += inc`): exact sum rounded to the nearest
double. -/
def flAdd (x y : ℚ) : ℚ := flRound (x + y)

/-- Python `int / int` true division: CPython returns the correctly
rounded double of the exact quotient. -/
def flDiv (x y : ℚ) : ℚ := flRound (x / y)

/-- The loop of `_draw_line`: `for i in range(n): if i % dotting == 0:
yield round(x), round(y); x += xinc; y += yinc`, entered with loop
counter `i`; the float accumulation uses binary64 addition. -/
def drawLineAux (dotting : Nat) (xinc yinc : ℚ) :
    Nat → Nat → ℚ → ℚ → List (Int × Int)
  | 0, _, _, _ => []
  | n + 1, i, x, y =>
      (if i % dotting = 0 then [(pyRound x, pyRound y)] else []) ++
        drawLineAux dotting xinc yinc n (i + 1) (flAdd x xinc) (flAdd y yinc)

/-- `_draw_line(start_x, start_y, end_x, end_y, dotting)` (canvas.py).
The Python floats (`dx / steps`, the accumulated `x`, `y`, and
`float(start_x)`) are modelled as their exact binary64 values via
`flDiv`/`flAdd`/`flRound`. -/
def _draw_line (start_x start_y end_x end_y : Int) (dotting : Nat) : List (Int × Int) :=
  let dx := end_x - start_x
  let dy := end_y - start_y
  let steps := if dx.natAbs > dy.natAbs then dx.natAbs else dy.natAbs
  let x_increment : ℚ := if steps ≠ 0 then flDiv (dx : ℚ) (steps : ℚ) else 0
  let y_increment : ℚ := if steps ≠ 0 then flDiv (dy : ℚ) (steps : ℚ) else 0
  drawLineAux dotting x_increment y_increment steps 0
    (flRound (start_x : ℚ)) (flRound (start_y : ℚ))

/-- The update of `min_max_x[y]` inside `_fill_convex_outline`; the dict is
an association list in insertion order (Python dicts preserve it). -/
def updateMinMax : List (Int × (Int × Int)) → Int → Int → List (Int × (Int × Int))
  | [], x, y => [(y, (x, x))]
  | (y', mm) :: rest, x, y =>
      if y = y' then (y', (min x mm.1, max x mm.2)) :: rest
      else (y', mm) :: updateMinMax rest x y

/-- `_fill_convex_outline(outline)` (canvas.py): record min/max x per y,
then emit every x in `[min_x, max_x]` for each recorded y. -/
def _fill_convex_outline (outline : List (Int × Int)) : List (Int × Int) :=
  let min_max_x := outline.foldl (fun acc p => updateMinMax acc p.1 p.2) []
  min_max_x.flatMap fun e =>
    (List.range (e.2.2 + 1 - e.2.1).toNat).map fun k => (e.2.1 + k, e.1)

/-- The `filled=False` branch of `_draw_polygon`: consecutive vertices
(wrapping last to first) connected by `_draw_line`. -/
def drawPolygonOutline (vertices : List (Int × Int)) : List (Int × Int) :=
  (List.range vertices.length).flatMap fun i =>
    let s := vertices.getD i (0, 0)
    let e := vertices.getD ((i + 1) % vertices.length) (0, 0)
    _draw_line s.1 s.2 e.1 e.2 1

/-- `_draw_polygon(vertices, filled)` (canvas.py). -/
def _draw_polygon (vertices : List (Int × Int)) (filled : Bool) : List (Int × Int) :=
  if filled then _fill_convex_outline (drawPolygonOutline vertices)
  else drawPolygonOutline vertices

/-- `_draw_rectangle(x, y, width, height, filled, rotation, anchor_x,
anchor_y, pivot_x, pivot_y)` (canvas.py): the body computes `angle`,
`cos`, `sin` and converts the pivot and anchor fractions to absolute
positions, and then ends — it contains no `yield` and no `return`, so in
Python the call returns `None` rather than an iterator of points.  The
absent coordinate sequence is modelled as `none`; the computed-and-dropped
trigonometric locals have no observable effect and are not modelled. -/
def _draw_rectangle (x y width height : Int) (filled : Bool)
    (rotation anchor_x anchor_y pivot_x pivot_y : ℚ) : Option (List (Int × Int)) :=
  none

/-- `Canvas.draw_rectangle(...)` (canvas.py): passes `anchor_x`/`anchor_y`
as `_draw_rectangle`'s `pivot_x`/`pivot_y` and hands the result to
`with_changes`, which validates `mode` first (raising `ValueError` for a
mode outside add/clear) and only then starts `for x, y in coords` —
where iterating `None` raises a `TypeError`. -/
def Canvas.draw_rectangle (c : Canvas) (x y width height : Int) (rotation : ℚ)
    (filled : Bool) (anchor_x anchor_y : ℚ) (mode : String) : Except PyErr Canvas :=
  if mode ≠ "add" ∧ mode ≠ "clear" then .error .valueError
  else
    match _draw_rectangle x y width height filled rotation 0 0 anchor_x anchor_y with
    | none => .error .typeError
    | some coords => c.with_changes coords mode

/-- A store of canvas objects for the aliasing claims: a canvas reference
is an index into the store.  `~c` runs `invert`, which assigns into
`self._canvas` and returns `self`: the store is updated at slot `r` and
the same reference comes back. -/
def invertRef (σ : List Canvas) (r : Nat) : List Canvas × Nat :=
  (σ.set r (σ.getD r default).invert, r)

/-- `c | o`, `c & o`, `c ^ o` run `apply_other`, which builds
`Canvas(self.width, self.height, ba)` — a freshly allocated object,
modelled as appending a new slot to the store. -/
def applyOtherRef (σ : List Canvas) (r₁ r₂ : Nat) (op : Bool → Bool → Bool) :
    Except PyErr (List Canvas × Nat) :=
  ((σ.getD r₁ default).apply_other (σ.getD r₂ default) op).map
    fun c => (σ ++ [c], σ.length)

/-- `Canvas.__eq__`: two canvases compare equal exactly when their buffers
are bitwise identical (dimensions are not compared). -/
def Canvas.pyEq (a b : Canvas) : Prop := a.buffer = b.buffer

/-- A concrete 2x4 canvas with two dots set, used by the witnesses. -/
def cW4 : Canvas :=
  Canvas.init 2 4 (some [true, false, false, false, false, false, false, true])

/-- The line primitive as the amended C5 claim describes it: step count
`max(|dx|, |dy|)`, per-step float increments `dx/steps` and `dy/steps`
added once per step (the position after `i` steps is the `i`-fold
increment of the start), the rounded point of every `dotting`-th step
`i < steps` emitted; zero steps (start equals end) emit no points and
perform no division by zero. -/
def lineSpecModel (start_x start_y end_x end_y : Int) (dotting : Nat) : List (Int × Int) :=
  let dx := end_x - start_x
  let dy := end_y - start_y
  let steps := max dx.natAbs dy.natAbs
  let xinc : ℚ := if steps ≠ 0 then flDiv (dx : ℚ) (steps : ℚ) else 0
  let yinc : ℚ := if steps ≠ 0 then flDiv (dy : ℚ) (steps : ℚ) else 0
  (List.range steps).filterMap fun i =>
    if i % dotting = 0 then
      some (pyRound ((fun v => flAdd v xinc)^[i] (flRound (start_x : ℚ))),
            pyRound ((fun v => flAdd v yinc)^[i] (flRound (start_y : ℚ))))
    else none

/-- The standard Unicode Braille dot-to-bit assignment as the C6 claim
words it: reading a cell column-major, top row to bottom row (the table's
rows are y-up, so top to bottom is row 3 down to row 0), column 0 carries
bits 0, 1, 2, 6 and column 1 carries bits 3, 4, 5, 7. -/
def stdBrailleBit (col row : Nat) : Nat :=
  (if col = 0 then [6, 2, 1, 0] else [7, 5, 4, 3]).getD row 0

section Lemmas

theorem getD_set {α : Type} (l : List α) (i j : Nat) (a d : α) :
    (l.set i a).getD j d = if i = j ∧ i < l.length then a else l.getD j d := by
  rw [List.getD_eq_getElem?_getD, List.getD_eq_getElem?_getD, List.getElem?_set]
  by_cases hij : i = j
  · subst hij
    by_cases hi : i < l.length
    · simp [hi]
    · simp [hi, List.getElem?_eq_none (Nat.le_of_not_lt hi)]
  · simp [hij]

theorem getD_append_left {α : Type} (l₁ l₂ : List α) (n : Nat) (d : α)
    (h : n < l₁.length) : (l₁ ++ l₂).getD n d = l₁.getD n d := by
  rw [List.getD_eq_getElem?_getD, List.getD_eq_getElem?_getD, List.getElem?_append_left h]

theorem dotIndex_lt (w h x y : Nat) (hx : x < w) (hy : y < h) :
    dotIndex w h x y < w * h := by
  unfold dotIndex
  calc (h - 1 - y) * w + x < (h - 1 - y) * w + w := by omega
    _ = ((h - 1 - y) + 1) * w := by ring
    _ ≤ h * w := Nat.mul_le_mul_right w (by omega)
    _ = w * h := Nat.mul_comm h w

theorem dotIndex_inj (w h x y x' y' : Nat) (hx : x < w) (hy : y < h)
    (hx' : x' < w) (hy' : y' < h) (he : dotIndex w h x y = dotIndex w h x' y') :
    x = x' ∧ y = y' := by
  unfold dotIndex at he
  have hw : 0 < w := Nat.lt_of_le_of_lt (Nat.zero_le x) hx
  have hxx : x = x' := by
    have h2 : ((h - 1 - y) * w + x) % w = ((h - 1 - y') * w + x') % w := by
      rw [he]
    rw [Nat.add_comm ((h - 1 - y) * w) x, Nat.add_comm ((h - 1 - y') * w) x',
      Nat.add_mul_mod_self_right, Nat.add_mul_mod_self_right,
      Nat.mod_eq_of_lt hx, Nat.mod_eq_of_lt hx'] at h2
    exact h2
  refine ⟨hxx, ?_⟩
  subst hxx
  have h3 : (h - 1 - y) * w = (h - 1 - y') * w := by omega
  have h4 : h - 1 - y = h - 1 - y' := Nat.eq_of_mul_eq_mul_right hw h3
  omega

theorem intIndex_toNat (w h : Nat) (x y : Int) (hx0 : 0 ≤ x) (hx : x < (w : Int))
    (hy0 : 0 ≤ y) (hy : y < (h : Int)) :
    (((h : Int) - y - 1) * w + x).toNat = dotIndex w h x.toNat y.toNat := by
  have h1 : (h : Int) - y - 1 = ((h - 1 - y.toNat : Nat) : Int) := by omega
  have h2 : ((h : Int) - y - 1) * w + x = ((dotIndex w h x.toNat y.toNat : Nat) : Int) := by
    rw [h1]
    unfold dotIndex
    push_cast
    congr 1
    omega
  omega

theorem applyCoords_length (w h : Nat) (val : Bool) (coords : List (Int × Int))
    (ba : List Bool) : (applyCoords w h val coords ba).length = ba.length := by
  induction coords generalizing ba with
  | nil => rfl
  | cons p rest ih =>
    obtain ⟨a, b⟩ := p
    rw [applyCoords, ih]
    split <;> simp

theorem applyCoords_getD (w h : Nat) (val : Bool) (coords : List (Int × Int))
    (ba : List Bool) (hlen : ba.length = w * h) (x y : Nat) (hx : x < w) (hy : y < h) :
    (applyCoords w h val coords ba).getD (dotIndex w h x y) false =
      if ((x : Int), (y : Int)) ∈ coords then val
      else ba.getD (dotIndex w h x y) false := by
  induction coords generalizing ba with
  | nil => simp [applyCoords]
  | cons p rest ih =>
    obtain ⟨a, b⟩ := p
    rw [applyCoords]
    by_cases hg : 0 ≤ a ∧ a < (w : Int) ∧ 0 ≤ b ∧ b < (h : Int)
    · rw [if_pos hg]
      obtain ⟨ha0, haw, hb0, hbh⟩ := hg
      have hj : (((h : Int) - b - 1) * w + a).toNat = dotIndex w h a.toNat b.toNat :=
        intIndex_toNat w h a b ha0 haw hb0 hbh
      have hlen' : (ba.set (((h : Int) - b - 1) * w + a).toNat val).length = w * h := by
        simp [hlen]
      rw [ih _ hlen']
      by_cases hmem : ((x : Int), (y : Int)) ∈ rest
      · simp [hmem]
      · rw [if_neg hmem, hj, getD_set]
        have hna : a.toNat < w := by omega
        have hnb : b.toNat < h := by omega
        by_cases heq : a = (x : Int) ∧ b = (y : Int)
        · have hax : a.toNat = x := by omega
          have hby : b.toNat = y := by omega
          have hmemc : ((x : Int), (y : Int)) ∈ (a, b) :: rest := by
            have hpair : ((x : Int), (y : Int)) = (a, b) := by rw [heq.1, heq.2]
            rw [hpair]
            exact List.mem_cons_self _ _
          rw [if_pos hmemc, if_pos]
          refine ⟨by rw [hax, hby], ?_⟩
          rw [hlen, hax, hby]
          exact dotIndex_lt w h x y hx hy
        · have hne : dotIndex w h a.toNat b.toNat ≠ dotIndex w h x y := by
            intro hcon
            obtain ⟨h5, h6⟩ := dotIndex_inj w h a.toNat b.toNat x y hna hnb hx hy hcon
            exact heq ⟨by omega, by omega⟩
          have hmemc : ¬ ((x : Int), (y : Int)) ∈ (a, b) :: rest := by
            rw [List.mem_cons]
            rintro (hcon | hcon)
            · rw [Prod.mk.injEq] at hcon
              exact heq ⟨hcon.1.symm, hcon.2.symm⟩
            · exact hmem hcon
          rw [if_neg hmemc, if_neg]
          rintro ⟨h7, -⟩
          exact hne h7
    · rw [if_neg hg, ih _ hlen]
      have hne : ¬ ((x : Int), (y : Int)) = (a, b) := by
        intro hcon
        rw [Prod.mk.injEq] at hcon
        obtain ⟨h7, h8⟩ := hcon
        exact hg ⟨by omega, by omega, by omega, by omega⟩
      have hiff : (((x : Int), (y : Int)) ∈ (a, b) :: rest) ↔
          (((x : Int), (y : Int)) ∈ rest) := by
        rw [List.mem_cons]
        exact or_iff_right hne
      rw [if_congr hiff rfl rfl]

theorem with_changes_ok (c : Canvas) (coords : List (Int × Int)) (mode : String)
    (hm : mode = "add" ∨ mode = "clear") :
    c.with_changes coords mode =
      .ok { c with buffer := applyCoords c.width c.height (mode == "add") coords c.buffer } := by
  unfold Canvas.with_changes
  rw [if_neg]
  rcases hm with h | h <;> simp [h]

theorem get_char_eq_list (g : List Bool) (x y w : Nat) :
    get_char g x y w =
      [g.getD ((y * 4) * w + x * 2) false, g.getD ((y * 4) * w + x * 2 + 1) false,
       g.getD ((y * 4 + 1) * w + x * 2) false, g.getD ((y * 4 + 1) * w + x * 2 + 1) false,
       g.getD ((y * 4 + 2) * w + x * 2) false, g.getD ((y * 4 + 2) * w + x * 2 + 1) false,
       g.getD ((y * 4 + 3) * w + x * 2) false, g.getD ((y * 4 + 3) * w + x * 2 + 1) false] :=
  rfl

theorem get_char_getD (g : List Bool) (cx cy w i j : Nat) (hi : i < 4) (hj : j < 2) :
    (get_char g cx cy w).getD (2 * i + j) false =
      g.getD ((cy * 4 + i) * w + cx * 2 + j) false := by
  interval_cases i <;> interval_cases j <;> rfl

end Lemmas

/-- C1: for every canvas, coordinate sequence and mode in add/clear,
`with_changes(coords, mode)` succeeds (out-of-range coordinates are
silently skipped, never an error), and a dot in range `[0, width) x
[0, height)` ends up set (mode add) or cleared (mode clear) exactly when
the sequence names it, every other in-range dot keeping its old value. -/
theorem with_changes_inrange_exact (c : Canvas) (hc : c.WF)
    (coords : List (Int × Int)) (mode : String)
    (hm : mode = "add" ∨ mode = "clear") :
    ∃ c', c.with_changes coords mode = .ok c' ∧
      c'.width = c.width ∧ c'.height = c.height ∧
      ∀ x y : Nat, x < c.width → y < c.height →
        c'.getDot x y =
          if ((x : Int), (y : Int)) ∈ coords then (mode == "add")
          else c.getDot x y := by
  refine ⟨_, with_changes_ok c coords mode hm, rfl, rfl, ?_⟩
  intro x y hx hy
  simp only [Canvas.getDot]
  exact applyCoords_getD c.width c.height _ coords c.buffer hc.2.2 x y hx hy

/-- Witness for C1: a 4x4 canvas, one in-range and one out-of-range
coordinate, mode add. -/
theorem with_changes_inrange_exact_witness :
    ∃ c', (Canvas.init 4 4 none).with_changes [(1, 2), (99, 99)] "add" = .ok c' ∧
      c'.width = (Canvas.init 4 4 none).width ∧
      c'.height = (Canvas.init 4 4 none).height ∧
      ∀ x y : Nat, x < (Canvas.init 4 4 none).width → y < (Canvas.init 4 4 none).height →
        c'.getDot x y =
          if ((x : Int), (y : Int)) ∈ [((1 : Int), (2 : Int)), (99, 99)] then ("add" == "add")
          else (Canvas.init 4 4 none).getDot x y :=
  with_changes_inrange_exact (Canvas.init 4 4 none) ⟨rfl, rfl, rfl⟩ [(1, 2), (99, 99)] "add"
    (Or.inl rfl)

/-- C2: setting the in-range dot `(x, y)` stores bit 1 at buffer offset
`(height - y - 1) * width + x` (the vertical axis is inverted on storage),
the rendered cell read by `get_char` reflects that bit at position
`2 * (storage_row % 4) + x % 2` of the cell at character column `x / 2`,
character row `storage_row / 4` (where `storage_row = height - 1 - y`),
and a subsequent clear of the same dot restores the stored bit to 0. -/
theorem set_dot_stored_rendered_cleared (c : Canvas) (hc : c.WF) (x y : Nat)
    (hx : x < c.width) (hy : y < c.height) :
    ∃ c₁, c.with_changes [((x : Int), (y : Int))] "add" = .ok c₁ ∧
      c₁.buffer.getD ((c.height - y - 1) * c.width + x) false = true ∧
      (get_char c₁.buffer (x / 2) ((c.height - 1 - y) / 4) c.width).getD
        (2 * ((c.height - 1 - y) % 4) + x % 2) false = true ∧
      ∃ c₂, c₁.with_changes [((x : Int), (y : Int))] "clear" = .ok c₂ ∧
        c₂.buffer.getD ((c.height - y - 1) * c.width + x) false = false := by
  have hoff : (c.height - y - 1) * c.width + x = dotIndex c.width c.height x y := by
    unfold dotIndex
    congr 2
    omega
  have hmem : ((x : Int), (y : Int)) ∈ [((x : Int), (y : Int))] :=
    List.mem_singleton_self _
  refine ⟨_, with_changes_ok c _ "add" (Or.inl rfl), ?_, ?_, ?_⟩
  · rw [hoff]
    rw [applyCoords_getD c.width c.height _ _ c.buffer hc.2.2 x y hx hy, if_pos hmem]
    decide
  · rw [get_char_getD _ _ _ _ _ _ (Nat.mod_lt _ (by norm_num)) (Nat.mod_lt _ (by norm_num))]
    have hcell : ((c.height - 1 - y) / 4 * 4 + (c.height - 1 - y) % 4) * c.width
        + x / 2 * 2 + x % 2 = dotIndex c.width c.height x y := by
      have e1 : (c.height - 1 - y) / 4 * 4 + (c.height - 1 - y) % 4 = c.height - 1 - y := by
        omega
      have e2 : x / 2 * 2 + x % 2 = x := by omega
      rw [e1]
      unfold dotIndex
      rw [Nat.add_assoc, e2]
    rw [hcell]
    rw [applyCoords_getD c.width c.height _ _ c.buffer hc.2.2 x y hx hy, if_pos hmem]
    decide
  · have hlen' : (applyCoords c.width c.height ("add" == "add")
        [((x : Int), (y : Int))] c.buffer).length = c.width * c.height := by
      rw [applyCoords_length]
      exact hc.2.2
    refine ⟨_, with_changes_ok _ _ "clear" (Or.inr rfl), ?_⟩
    rw [hoff]
    rw [applyCoords_getD c.width c.height _ _ _ hlen' x y hx hy, if_pos hmem]
    decide

/-- Witness for C2: dot (1, 2) on a 4x4 canvas. -/
theorem set_dot_stored_rendered_cleared_witness :
    ∃ c₁, (Canvas.init 4 4 none).with_changes [((1 : Int), (2 : Int))] "add" = .ok c₁ ∧
      c₁.buffer.getD (((Canvas.init 4 4 none).height - 2 - 1) * (Canvas.init 4 4 none).width + 1)
        false = true ∧
      (get_char c₁.buffer (1 / 2) (((Canvas.init 4 4 none).height - 1 - 2) / 4)
        (Canvas.init 4 4 none).width).getD
        (2 * (((Canvas.init 4 4 none).height - 1 - 2) % 4) + 1 % 2) false = true ∧
      ∃ c₂, c₁.with_changes [((1 : Int), (2 : Int))] "clear" = .ok c₂ ∧
        c₂.buffer.getD (((Canvas.init 4 4 none).height - 2 - 1) * (Canvas.init 4 4 none).width + 1)
          false = false :=
  set_dot_stored_rendered_cleared (Canvas.init 4 4 none) ⟨rfl, rfl, rfl⟩ 1 2 (by decide) (by decide)

section BooleanOps

theorem init_dims_of_whole_cells (wd hd : Nat) (contents : Option (List Bool))
    (hw : wd % BRAILLE_COLS = 0) (hh : hd % BRAILLE_ROWS = 0) :
    (Canvas.init wd hd contents).width = wd ∧ (Canvas.init wd hd contents).height = hd := by
  unfold BRAILLE_COLS at hw
  unfold BRAILLE_ROWS at hh
  constructor
  · show (wd + 2 - 1) / 2 * 2 = wd
    omega
  · show (hd + 4 - 1) / 4 * 4 = hd
    omega

theorem WF_width_mod (c : Canvas) (hc : c.WF) : c.width % BRAILLE_COLS = 0 := by
  rw [hc.1]
  exact Nat.mul_mod_left _ _

theorem WF_height_mod (c : Canvas) (hc : c.WF) : c.height % BRAILLE_ROWS = 0 := by
  rw [hc.2.1]
  exact Nat.mul_mod_left _ _

theorem zipWith_self_of_idem (f : Bool → Bool → Bool) (hf : ∀ a, f a a = a)
    (l : List Bool) : List.zipWith f l l = l := by
  induction l with
  | nil => rfl
  | cons a t ih => simp [List.zipWith, hf, ih]

theorem zipWith_xor_self (l : List Bool) :
    List.zipWith (fun a b => xor a b) l l = List.replicate l.length false := by
  induction l with
  | nil => rfl
  | cons a t ih => simp [List.zipWith, ih, List.replicate]

end BooleanOps

/-- C3 counterexample: `apply_other` performs no dimension check.  A 4x8
canvas and an 8x4 canvas have different dimensions but buffers of equal
bit-length (32), so combining them succeeds instead of failing with a
size-mismatch error. -/
theorem apply_other_no_dim_check :
    (Canvas.init 4 8 none).width ≠ (Canvas.init 8 4 none).width ∧
    ∃ r, (Canvas.init 4 8 none).apply_other (Canvas.init 8 4 none)
      (fun a b => a || b) = .ok r :=
  ⟨by decide, ⟨_, rfl⟩⟩

/-- C3 (amended): `apply_other` (and `|`, `&`, `^` built on it) fails with
`bitarray`'s ValueError exactly when the two buffers differ in bit-length;
when the dimensions are equal it returns a new canvas of the same
dimensions whose buffer is the bitwise combination of the two input
buffers (inputs are values here; non-mutation is the subject of C10). -/
theorem apply_other_length_check_and_combine (c o : Canvas) (op : Bool → Bool → Bool) :
    (c.buffer.length ≠ o.buffer.length → c.apply_other o op = .error .valueError) ∧
    (c.WF → o.WF → c.width = o.width → c.height = o.height →
      ∃ r, c.apply_other o op = .ok r ∧
        r.buffer = List.zipWith op c.buffer o.buffer ∧
        r.width = c.width ∧ r.height = c.height) := by
  constructor
  · intro h
    unfold Canvas.apply_other
    rw [if_neg h]
  · intro hc ho hw hh
    have hlen : c.buffer.length = o.buffer.length := by
      rw [hc.2.2, ho.2.2, hw, hh]
    have hdims := init_dims_of_whole_cells c.width c.height
      (some (List.zipWith op c.buffer o.buffer)) (WF_width_mod c hc) (WF_height_mod c hc)
    refine ⟨_, ?_, rfl, hdims.1, hdims.2⟩
    unfold Canvas.apply_other
    rw [if_pos hlen]

/-- Witness for C3's amended theorem: both branches at concrete canvases —
a buffer-length mismatch errors, equal dimensions combine. -/
theorem apply_other_length_check_and_combine_witness :
    (Canvas.init 2 4 none).apply_other (Canvas.init 2 8 none)
      (fun a b => a || b) = .error .valueError ∧
    ∃ r, (Canvas.init 2 4 none).apply_other (Canvas.init 2 4 none)
      (fun a b => a || b) = .ok r ∧
      r.buffer = List.zipWith (fun a b => a || b)
        (Canvas.init 2 4 none).buffer (Canvas.init 2 4 none).buffer ∧
      r.width = (Canvas.init 2 4 none).width ∧ r.height = (Canvas.init 2 4 none).height :=
  ⟨(apply_other_length_check_and_combine (Canvas.init 2 4 none) (Canvas.init 2 8 none)
      (fun a b => a || b)).1 (by decide),
   (apply_other_length_check_and_combine (Canvas.init 2 4 none) (Canvas.init 2 4 none)
      (fun a b => a || b)).2 ⟨rfl, rfl, rfl⟩ ⟨rfl, rfl, rfl⟩ rfl rfl⟩

/-- C4: self-OR and self-AND reproduce the canvas, self-XOR gives the
all-clear canvas of the same size, and double inversion restores the
original — all up to `Canvas.__eq__`, which compares buffers bitwise. -/
theorem boolean_op_algebra (c : Canvas) (hc : c.WF) :
    (∃ d, c.apply_other c (fun a b => a || b) = .ok d ∧ d.pyEq c) ∧
    (∃ d, c.apply_other c (fun a b => a && b) = .ok d ∧ d.pyEq c) ∧
    (∃ d, c.apply_other c (fun a b => xor a b) = .ok d ∧
      d.pyEq (Canvas.init c.width c.height none)) ∧
    c.invert.invert.pyEq c := by
  have hok : ∀ op : Bool → Bool → Bool, c.apply_other c op =
      .ok (Canvas.init c.width c.height (some (List.zipWith op c.buffer c.buffer))) := by
    intro op
    unfold Canvas.apply_other
    rw [if_pos rfl]
  refine ⟨⟨_, hok _, ?_⟩, ⟨_, hok _, ?_⟩, ⟨_, hok _, ?_⟩, ?_⟩
  · show List.zipWith _ c.buffer c.buffer = c.buffer
    exact zipWith_self_of_idem _ Bool.or_self c.buffer
  · show List.zipWith _ c.buffer c.buffer = c.buffer
    exact zipWith_self_of_idem _ Bool.and_self c.buffer
  · show List.zipWith _ c.buffer c.buffer =
      (Canvas.init c.width c.height none).buffer
    rw [zipWith_xor_self, hc.2.2]
    show _ = Option.getD none _
    have hwd : (c.width + BRAILLE_COLS - 1) / BRAILLE_COLS * BRAILLE_COLS = c.width := by
      have := WF_width_mod c hc
      unfold BRAILLE_COLS at *
      omega
    have hht : (c.height + BRAILLE_ROWS - 1) / BRAILLE_ROWS * BRAILLE_ROWS = c.height := by
      have := WF_height_mod c hc
      unfold BRAILLE_ROWS at *
      omega
    simp only [Canvas.init, Option.getD, hwd, hht]
  · show (c.buffer.map not).map not = c.buffer
    rw [List.map_map]
    have : (not ∘ not) = id := by
      funext b
      cases b <;> rfl
    rw [this, List.map_id]

/-- Witness for C4 at a concrete 2x4 canvas with one dot set. -/
theorem boolean_op_algebra_witness :
    (∃ d, cW4.apply_other cW4 (fun a b => a || b) = .ok d ∧ d.pyEq cW4) ∧
    (∃ d, cW4.apply_other cW4 (fun a b => a && b) = .ok d ∧ d.pyEq cW4) ∧
    (∃ d, cW4.apply_other cW4 (fun a b => xor a b) = .ok d ∧
      d.pyEq (Canvas.init cW4.width cW4.height none)) ∧
    cW4.invert.invert.pyEq cW4 :=
  boolean_op_algebra cW4 ⟨rfl, rfl, rfl⟩

section LineLemmas

theorem drawLineAux_eq (d : Nat) (xi yi : ℚ) (n : Nat) :
    ∀ (i : Nat) (x y : ℚ),
      drawLineAux d xi yi n i x y =
        (List.range n).filterMap fun k =>
          if (i + k) % d = 0 then
            some (pyRound ((fun v => flAdd v xi)^[k] x),
                  pyRound ((fun v => flAdd v yi)^[k] y))
          else none := by
  induction n with
  | zero => intro i x y; rfl
  | succ n ih =>
    intro i x y
    rw [drawLineAux, List.range_succ_eq_map, List.filterMap_cons,
      List.filterMap_map, ih (i + 1) (flAdd x xi) (flAdd y yi)]
    have hcongr : ∀ k ∈ List.range n,
        ((fun k : Nat =>
          if (i + 1 + k) % d = 0 then
            some (pyRound ((fun v => flAdd v xi)^[k] (flAdd x xi)),
                  pyRound ((fun v => flAdd v yi)^[k] (flAdd y yi)))
          else none) k) =
        ((fun k : Nat =>
          if (i + k) % d = 0 then
            some (pyRound ((fun v => flAdd v xi)^[k] x),
                  pyRound ((fun v => flAdd v yi)^[k] y))
          else none) ∘ Nat.succ) k := by
      intro k _
      have h1 : i + 1 + k = i + (k + 1) := by omega
      show (if (i + 1 + k) % d = 0 then
          some (pyRound ((fun v => flAdd v xi)^[k] (flAdd x xi)),
                pyRound ((fun v => flAdd v yi)^[k] (flAdd y yi)))
        else none) =
        (if (i + (k + 1)) % d = 0 then
          some (pyRound ((fun v => flAdd v xi)^[k + 1] x),
                pyRound ((fun v => flAdd v yi)^[k + 1] y))
        else none)
      rw [h1, Function.iterate_succ_apply, Function.iterate_succ_apply]
    rw [List.filterMap_congr hcongr]
    have hhead : (if (i + 0) % d = 0 then
        some (pyRound ((fun v => flAdd v xi)^[0] x),
              pyRound ((fun v => flAdd v yi)^[0] y))
      else none) = (if i % d = 0 then some (pyRound x, pyRound y) else none) := by
      rw [Nat.add_zero, Function.iterate_zero_apply, Function.iterate_zero_apply]
    split
    · rename_i hcond
      rw [List.singleton_append]
      rw [show (if (i + 0) % d = 0 then
          some (pyRound ((fun v => flAdd v xi)^[0] x),
                pyRound ((fun v => flAdd v yi)^[0] y))
        else none) = some (pyRound x, pyRound y) from by rw [hhead, if_pos hcond]]
    · rename_i hcond
      rw [List.nil_append]
      rw [show (if (i + 0) % d = 0 then
          some (pyRound ((fun v => flAdd v xi)^[0] x),
                pyRound ((fun v => flAdd v yi)^[0] y))
        else none) = none from by rw [hhead, if_neg hcond]]

theorem steps_eq_max (a b : Nat) : (if a > b then a else b) = max a b := by
  rw [Nat.max_def]
  split <;> split <;> omega

end LineLemmas

/-- C5 counterexample: with start equal to end (`steps == 0`), `_draw_line`
iterates `range(0)` and emits no point at all — not the start point the
claim (and spec) promise. -/
theorem draw_line_degenerate_emits_nothing :
    _draw_line 3 4 3 4 1 = [] ∧ _draw_line 3 4 3 4 1 ≠ [(3, 4)] := by
  decide

/-- C5 (amended): for `dotting >= 1`, the line primitive uses step count
`max(|dx|, |dy|)`, increments by the float quotients `dx/steps` and
`dy/steps` per step (binary64 addition), and emits the rounded point of
every `dotting`-th step `i < steps`; in the degenerate case `steps == 0`
it emits no points (the loop body never runs), without division by
zero. -/
theorem draw_line_matches_spec_model (start_x start_y end_x end_y : Int) (dotting : Nat)
    (hd : 1 ≤ dotting) :
    _draw_line start_x start_y end_x end_y dotting =
      lineSpecModel start_x start_y end_x end_y dotting := by
  clear hd
  simp only [_draw_line, lineSpecModel]
  rw [steps_eq_max]
  by_cases hz : max (end_x - start_x).natAbs (end_y - start_y).natAbs = 0
  · rw [hz]
    rfl
  · rw [if_pos hz, if_pos hz, drawLineAux_eq]
    apply List.filterMap_congr
    intro k _
    rw [Nat.zero_add]

/-- Witness for C5's amended theorem at a concrete dotted line. -/
theorem draw_line_matches_spec_model_witness :
    _draw_line 0 0 9 3 2 = lineSpecModel 0 0 9 3 2 :=
  draw_line_matches_spec_model 0 0 9 3 2 (by decide)

theorem dictLookup_eq_none {α β : Type} [DecidableEq α] (l : List (α × β)) (k : α)
    (hk : k ∉ l.map Prod.fst) : dictLookup l k = none := by
  induction l with
  | nil => rfl
  | cons p rest ih =>
    obtain ⟨k', v⟩ := p
    rw [List.map_cons, List.mem_cons] at hk
    push_neg at hk
    rw [dictLookup, if_neg hk.1]
    exact ih hk.2

/-- C6: the codec table realizes the standard Unicode Braille dot-to-bit
assignment (column-major, top to bottom: bits 0, 1, 2, 6 for column 0 and
3, 4, 5, 7 for column 1) and `coords_to_braille` returns code point
`0x2800 | byte`; the placeholder coordinates `(0, -1)` and `(1, -1)` map
to 0 and are accepted as no-ops; every coordinate outside the table raises
the explicit invalid-coordinate `ValueError`. -/
theorem codec_table_standard :
    (∀ col row : Nat, col < 2 → row < 4 →
      dictLookup coords_braille_mapping ((col : Int), (row : Int)) =
        some (1 <<< stdBrailleBit col row) ∧
      coords_to_braille [((col : Int), (row : Int))] =
        .ok (BRAILLE_RANGE_START ||| 1 <<< stdBrailleBit col row)) ∧
    dictLookup coords_braille_mapping (0, -1) = some 0 ∧
    dictLookup coords_braille_mapping (1, -1) = some 0 ∧
    coords_to_braille [(0, -1)] = .ok BRAILLE_RANGE_START ∧
    coords_to_braille [(1, -1)] = .ok BRAILLE_RANGE_START ∧
    (∀ p : Int × Int, p ∉ coords_braille_mapping.map Prod.fst →
      coords_to_braille [p] = .error .valueError) := by
  refine ⟨?_, rfl, rfl, rfl, rfl, ?_⟩
  · intro col row h2 h4
    interval_cases col <;> interval_cases row <;> exact ⟨rfl, rfl⟩
  · intro p hp
    have hnone : dictLookup coords_braille_mapping p = none :=
      dictLookup_eq_none _ _ hp
    simp [coords_to_braille, List.foldlM, hnone]

/-- Witness for C6: dot (0, 0) maps to bit 6 (`⡀`) and the out-of-table
coordinate (2, 5) raises the invalid-coordinate error. -/
theorem codec_table_standard_witness :
    coords_to_braille [(((0 : Nat) : Int), ((0 : Nat) : Int))] =
      .ok (BRAILLE_RANGE_START ||| 1 <<< stdBrailleBit 0 0) ∧
    coords_to_braille [(2, 5)] = .error .valueError :=
  ⟨(codec_table_standard.1 0 0 (by decide) (by decide)).2,
   codec_table_standard.2.2.2.2.2 (2, 5) (by decide)⟩

/-- C7 (code bug): `_draw_rectangle` never yields — the function body stops
after computing its trigonometric locals — so for every valid mode
`draw_rectangle` raises `TypeError` when `with_changes` iterates the
returned `None`, and no rectangle of dots (centered or otherwise) is ever
produced; an invalid mode still raises `with_changes`' `ValueError`,
which runs before the iteration. -/
theorem draw_rectangle_error_semantics (c : Canvas) (x y width height : Int)
    (rotation : ℚ) (filled : Bool) (anchor_x anchor_y : ℚ) (mode : String) :
    (mode = "add" ∨ mode = "clear" →
      c.draw_rectangle x y width height rotation filled anchor_x anchor_y mode
        = .error .typeError) ∧
    (mode ≠ "add" → mode ≠ "clear" →
      c.draw_rectangle x y width height rotation filled anchor_x anchor_y mode
        = .error .valueError) := by
  constructor
  · intro hm
    unfold Canvas.draw_rectangle
    rw [if_neg]
    · rfl
    · rcases hm with h | h <;> simp [h]
  · intro h1 h2
    unfold Canvas.draw_rectangle
    rw [if_pos ⟨h1, h2⟩]

/-- Witness for C7: a concrete rectangle call with mode add raises
`TypeError`; one with a bogus mode raises `ValueError`. -/
theorem draw_rectangle_error_semantics_witness :
    (Canvas.init 200 200 none).draw_rectangle 10 10 20 20 0 true 0.5 0.5 "add"
      = .error .typeError ∧
    (Canvas.init 200 200 none).draw_rectangle 10 10 20 20 0 true 0.5 0.5 "bogus"
      = .error .valueError :=
  ⟨(draw_rectangle_error_semantics (Canvas.init 200 200 none) 10 10 20 20 0 true
      0.5 0.5 "add").1 (Or.inl rfl),
   (draw_rectangle_error_semantics (Canvas.init 200 200 none) 10 10 20 20 0 true
      0.5 0.5 "bogus").2 (by decide) (by decide)⟩

/-- C8 counterexample: `set_cell(-1, 0)` on a 4x4 canvas does not fail — the
computed buffer index `(4 - 0 - 1) * 4 + (-1) = 11` is in range, so the
call silently sets the *different* dot (3, 1). -/
theorem set_cell_oob_silent_write :
    ¬ (0 ≤ (-1 : Int)) ∧
    ((Canvas.init 4 4 none).set_cell (-1) 0).toOption.map (fun c' => c'.getDot 3 1)
      = some true := by
  decide

/-- C8 (amended): `set_cell`/`clear_cell` raise `IndexError` exactly when
the computed buffer index `(height - y - 1) * width + x` falls outside
`[-len, len)`; inside that range the write succeeds, with a negative
index wrapping around (`index + len`) — so some out-of-range coordinates
are silently written to a different dot instead of failing. -/
theorem set_clear_cell_python_index_semantics (c : Canvas) (x y : Int) :
    ((((c.height : Int) - y - 1) * c.width + x < -(c.buffer.length : Int) ∨
        (c.buffer.length : Int) ≤ ((c.height : Int) - y - 1) * c.width + x) →
      c.set_cell x y = .error .indexError ∧
      c.clear_cell x y = .error .indexError) ∧
    (-(c.buffer.length : Int) ≤ ((c.height : Int) - y - 1) * c.width + x →
      ((c.height : Int) - y - 1) * c.width + x < (c.buffer.length : Int) →
      c.set_cell x y = .ok { c with buffer := (c.buffer.set
          (if ((c.height : Int) - y - 1) * c.width + x < 0 then
            ((c.height : Int) - y - 1) * c.width + x + c.buffer.length
          else ((c.height : Int) - y - 1) * c.width + x).toNat true) } ∧
      c.clear_cell x y = .ok { c with buffer := (c.buffer.set
          (if ((c.height : Int) - y - 1) * c.width + x < 0 then
            ((c.height : Int) - y - 1) * c.width + x + c.buffer.length
          else ((c.height : Int) - y - 1) * c.width + x).toNat false) }) := by
  constructor
  · intro h
    refine ⟨?_, ?_⟩
    · unfold Canvas.set_cell bitarraySetItem
      rw [if_pos h]
      rfl
    · unfold Canvas.clear_cell bitarraySetItem
      rw [if_pos h]
      rfl
  · intro h1 h2
    have hcond : ¬ (((c.height : Int) - y - 1) * c.width + x < -(c.buffer.length : Int) ∨
        (c.buffer.length : Int) ≤ ((c.height : Int) - y - 1) * c.width + x) :=
      not_or.mpr ⟨not_lt.mpr h1, not_le.mpr h2⟩
    refine ⟨?_, ?_⟩
    · unfold Canvas.set_cell bitarraySetItem
      rw [if_neg hcond]
      rfl
    · unfold Canvas.clear_cell bitarraySetItem
      rw [if_neg hcond]
      rfl

/-- Witness for C8's amended theorem: a far out-of-range row errors; an
in-range dot writes its bit. -/
theorem set_clear_cell_python_index_semantics_witness :
    (Canvas.init 2 4 none).set_cell 0 99 = .error .indexError ∧
    (Canvas.init 2 4 none).clear_cell 0 99 = .error .indexError :=
  (set_clear_cell_python_index_semantics (Canvas.init 2 4 none) 0 99).1 (by decide)

/-- C9 (code bug): a zero-length polygon vertex list does not fail fast —
`_draw_polygon` silently yields no points, outline and filled alike. -/
theorem draw_polygon_empty_silently_empty :
    _draw_polygon [] false = [] ∧ _draw_polygon [] true = [] := by
  decide

theorem getD_append_self {α : Type} (l : List α) (a d : α) :
    (l ++ [a]).getD l.length d = a := by
  rw [List.getD_eq_getElem?_getD, List.getElem?_append_right (Nat.le_refl _)]
  simp

/-- C10: `~c` (`__invert__ = invert`) flips the buffer of the object it is
called on, in place, and returns the very same reference — no allocation;
the binary operators (all routed through `apply_other`) allocate a fresh
object and leave the buffers of both operands untouched. -/
theorem invert_aliases_binops_allocate (σ : List Canvas) (r r₁ r₂ : Nat)
    (op : Bool → Bool → Bool) (hr : r < σ.length) (h₁ : r₁ < σ.length)
    (h₂ : r₂ < σ.length) :
    (invertRef σ r).2 = r ∧
    (invertRef σ r).1.length = σ.length ∧
    ((invertRef σ r).1.getD r default).buffer = (σ.getD r default).buffer.map not ∧
    (∀ σ' r', applyOtherRef σ r₁ r₂ op = .ok (σ', r') →
      r' ≠ r₁ ∧ r' ≠ r₂ ∧ σ'.length = σ.length + 1 ∧
      σ'.getD r₁ default = σ.getD r₁ default ∧
      σ'.getD r₂ default = σ.getD r₂ default ∧
      (σ'.getD r' default).buffer =
        List.zipWith op (σ.getD r₁ default).buffer (σ.getD r₂ default).buffer) := by
  refine ⟨rfl, by simp [invertRef], ?_, ?_⟩
  · show ((σ.set r _).getD r default).buffer = _
    rw [getD_set, if_pos ⟨rfl, hr⟩]
    rfl
  · intro σ' r' hok
    unfold applyOtherRef Canvas.apply_other at hok
    by_cases hlen : (σ.getD r₁ default).buffer.length = (σ.getD r₂ default).buffer.length
    · rw [if_pos hlen] at hok
      simp only [Except.map] at hok
      have h3 := Except.ok.inj hok
      have hσ' : σ ++ [Canvas.init (σ.getD r₁ default).width (σ.getD r₁ default).height
          (some (List.zipWith op (σ.getD r₁ default).buffer
            (σ.getD r₂ default).buffer))] = σ' := congrArg Prod.fst h3
      have hr' : σ.length = r' := congrArg Prod.snd h3
      subst hσ'
      subst hr'
      refine ⟨by omega, by omega, by simp, ?_, ?_, ?_⟩
      · exact getD_append_left _ _ _ _ h₁
      · exact getD_append_left _ _ _ _ h₂
      · rw [getD_append_self]
        rfl
    · rw [if_neg hlen] at hok
      simp [Except.map] at hok

/-- Witness for C10 on a two-object store holding the same 2x4 canvas. -/
theorem invert_aliases_binops_allocate_witness :
    (invertRef [cW4, cW4] 0).2 = 0 ∧
    (invertRef [cW4, cW4] 0).1.length = [cW4, cW4].length ∧
    ((invertRef [cW4, cW4] 0).1.getD 0 default).buffer =
      ([cW4, cW4].getD 0 default).buffer.map not ∧
    (∀ σ' r', applyOtherRef [cW4, cW4] 0 1 (fun a b => a || b) = .ok (σ', r') →
      r' ≠ 0 ∧ r' ≠ 1 ∧ σ'.length = [cW4, cW4].length + 1 ∧
      σ'.getD 0 default = [cW4, cW4].getD 0 default ∧
      σ'.getD 1 default = [cW4, cW4].getD 1 default ∧
      (σ'.getD r' default).buffer =
        List.zipWith (fun a b => a || b) ([cW4, cW4].getD 0 default).buffer
          ([cW4, cW4].getD 1 default).buffer) :=
  invert_aliases_binops_allocate [cW4, cW4] 0 0 1 (fun a b => a || b)
    (by decide) (by decide) (by decide)

end Brailliant
